import Mathlib

/-!
Verification of the Identifiai-Reactapp log-analysis core.

The central algorithm is `normalizeErrorPattern` (frontend log-normalizer
utility, mirrored from `log_normalizer.py`): a fixed sequence of 23 global
regex replacements applied to an error message.  Each JavaScript
`String.replace(/…/g, …)` call is embedded here as a left-to-right scanner
over `List Char` whose per-position matcher hand-compiles the regular
expression of the source, including its greedy/backtracking and
word-boundary semantics.

Also embedded: the status-selector option lists of the dashboard UI and
(from the documentation, the backend scripts being absent from the sources)
the waterfall classifier and the checkpointed batch scanner.
-/

namespace Identifiai

/-! ## Character classes (JavaScript regex semantics, ASCII range) -/

/-- JS `\w` word characters: `[A-Za-z0-9_]`. -/
def isWordChar (c : Char) : Bool := c.isAlphanum || c = '_'

/-- JS `\s` whitespace (the ASCII part; the embedded inputs are ASCII). -/
def isSpaceChar (c : Char) : Bool :=
  c = ' ' || c = '\t' || c = '\n' || c = '\r' || c = '\x0b' || c = '\x0c'

/-- Hexadecimal digits `[0-9a-fA-F]`. -/
def isHexChar (c : Char) : Bool :=
  c.isDigit || ('a' ≤ c && c ≤ 'f') || ('A' ≤ c && c ≤ 'F')

/-- Email local part class `[A-Za-z0-9._%+-]`. -/
def isLocalChar (c : Char) : Bool :=
  c.isAlphanum || c = '.' || c = '_' || c = '%' || c = '+' || c = '-'

/-- Email domain class `[A-Za-z0-9.-]`. -/
def isDomainChar (c : Char) : Bool := c.isAlphanum || c = '.' || c = '-'

/-- Email top-level-domain class `[A-Z|a-z]` (the source class contains a
literal pipe). -/
def isTldChar (c : Char) : Bool := c.isAlpha || c = '|'

/-- File path class `[^\s<>"|?*]`. -/
def isPathChar (c : Char) : Bool :=
  !(isSpaceChar c || c = '<' || c = '>' || c = '"' || c = '|' || c = '?' || c = '*')

/-- Session id class `[A-Za-z0-9_-]`. -/
def isSessChar (c : Char) : Bool := c.isAlphanum || c = '_' || c = '-'

/-- Query parameter key class `[a-zA-Z_]`. -/
def isKeyChar (c : Char) : Bool := c.isAlpha || c = '_'

/-- Query value class `[A-Za-z0-9_-]`. -/
def isValueChar (c : Char) : Bool := c.isAlphanum || c = '_' || c = '-'

/-- Java object reference class `[A-Za-z0-9_$\[\];.]`. -/
def isObjChar (c : Char) : Bool :=
  c.isAlphanum || c = '_' || c = '$' || c = '[' || c = ']' || c = ';' || c = '.'

/-- Wordness of an optional character; positions outside the string count as
non-word for `\b`. -/
def isWordOpt : Option Char → Bool
  | none => false
  | some c => isWordChar c

/-- JS `\b`: the position between two (optional) characters is a word
boundary iff exactly one side is a word character. -/
def boundary (a b : Option Char) : Bool := isWordOpt a != isWordOpt b

/-- Holds iff the next character (if any) is not a word character: the test
`\b` performs after a match that ends in a word character. -/
def notWordNext (cs : List Char) : Bool :=
  match cs with
  | [] => true
  | c :: _ => !isWordChar c

/-! ## Parsing helpers -/

/-- Longest prefix of characters satisfying `p`, with the remainder
(the semantics of a greedy character-class repetition). -/
def takeRun (p : Char → Bool) : List Char → List Char × List Char
  | [] => ([], [])
  | c :: cs =>
    if p c then
      let r := takeRun p cs
      (c :: r.1, r.2)
    else ([], c :: cs)

/-- Consume one expected literal character. -/
def expect (a : Char) : List Char → Option (List Char)
  | c :: cs => if c = a then some cs else none
  | [] => none

/-- Consume an expected literal string. -/
def expectStr : List Char → List Char → Option (List Char)
  | [], cs => some cs
  | a :: as, c :: cs => if c = a then expectStr as cs else none
  | _ :: _, [] => none

/-- Consume exactly `n` characters satisfying `p` (the semantics of a
counted repetition `{n}`). -/
def takeExactly (p : Char → Bool) : Nat → List Char → Option (List Char)
  | 0, cs => some cs
  | n + 1, c :: cs => if p c then takeExactly p n cs else none
  | _ + 1, [] => none

/-! ## The global-replace scanner

A matcher receives the character preceding the current position (for `\b`)
and the current suffix; on success it yields the replacement text and the
remainder after the matched prefix.  `replaceAll` is JS
`String.replace(/…/g, …)`: scan left to right, replace each leftmost
non-overlapping match, continue after it. -/

abbrev Matcher := Option Char → List Char → Option (List Char × List Char)

/-- The last character the match consumed (the character preceding `rest`
in `t`); needed as the `\b` context for the continuation of the scan. -/
def lastConsumed (t rest : List Char) : Option Char :=
  (t.take (t.length - rest.length)).getLast?

def scanAux (m : Matcher) : Nat → Option Char → List Char → List Char
  | 0, _, cs => cs
  | _ + 1, _, [] => []
  | fuel + 1, prev, c :: cs =>
    match m prev (c :: cs) with
    | some (rep, rest) => rep ++ scanAux m fuel (lastConsumed (c :: cs) rest) rest
    | none => c :: scanAux m fuel (some c) cs

/-- One global replacement pass.  Every matcher below consumes at least one
character on success, so `cs.length` steps of fuel always suffice. -/
def replaceAll (m : Matcher) (cs : List Char) : List Char :=
  scanAux m cs.length none cs

/-! ## The 23 substitution rules of `normalizeErrorPattern`

Each matcher hand-compiles one regex of the source, in source order.
Greedy repetitions followed by a literal the repeated class excludes need no
backtracking (shorter attempts fail on a class character), so they are
compiled as maximal runs plus a literal check; the places where JS
backtracking can succeed (the email domain/TLD and the optional ISO-8601
suffixes) are compiled with an explicit search. -/

/-- Pattern 1a: `\((\d+)\)` → `(*)`. -/
def m_parenIdx : Matcher := fun _ cs =>
  match cs with
  | c :: rest =>
    if c = '(' then
      let r := takeRun Char.isDigit rest
      if r.1.isEmpty then none
      else
        match expect ')' r.2 with
        | some rest2 => some ("(*)".toList, rest2)
        | none => none
    else none
  | [] => none

/-- Pattern 1b: `\[(\d+)\]` → `[*]`. -/
def m_brackIdx : Matcher := fun _ cs =>
  match cs with
  | c :: rest =>
    if c = '[' then
      let r := takeRun Char.isDigit rest
      if r.1.isEmpty then none
      else
        match expect ']' r.2 with
        | some rest2 => some ("[*]".toList, rest2)
        | none => none
    else none
  | [] => none

/-- An ordered alternation of string literals.  All the alternations in the
source are two- or three-letter literals none of which is a proper prefix
of another, so first-match semantics is faithful. -/
def expectAlt (lits : List (List Char)) (cs : List Char) : Option (List Char) :=
  match lits with
  | [] => none
  | l :: ls =>
    match expectStr l cs with
    | some r => some r
    | none => expectAlt ls cs

def dayLits : List (List Char) :=
  [['M', 'o', 'n'], ['T', 'u', 'e'], ['W', 'e', 'd'], ['T', 'h', 'u'],
   ['F', 'r', 'i'], ['S', 'a', 't'], ['S', 'u', 'n']]

def monthLits : List (List Char) :=
  [['J', 'a', 'n'], ['F', 'e', 'b'], ['M', 'a', 'r'], ['A', 'p', 'r'],
   ['M', 'a', 'y'], ['J', 'u', 'n'], ['J', 'u', 'l'], ['A', 'u', 'g'],
   ['S', 'e', 'p'], ['O', 'c', 't'], ['N', 'o', 'v'], ['D', 'e', 'c']]

/-- The weekday alternation `(?:Mon|Tue|Wed|Thu|Fri|Sat|Sun)`. -/
def expectDay (cs : List Char) : Option (List Char) := expectAlt dayLits cs

/-- The month alternation `(?:Jan|…|Dec)`. -/
def expectMonth (cs : List Char) : Option (List Char) := expectAlt monthLits cs

/-- A maximal run of `p`-characters whose length lies in `[lo, hi]`,
followed by something outside `p`; the semantics of `p{lo,hi}` when the next
regex token rejects every `p`-character (so backtracking cannot succeed). -/
def runBetween (p : Char → Bool) (lo hi : Nat) (cs : List Char) :
    Option (List Char) :=
  let r := takeRun p cs
  if lo ≤ r.1.length && r.1.length ≤ hi then some r.2 else none

/-- Pattern 2a: the HTTP date
`(?:Mon|…|Sun),\s+\d{1,2}\s+(?:Jan|…|Dec)\s+\d{4}\s+\d{2}:\d{2}:\d{2}\s+(?:GMT|UTC|EST|EDT|PST|PDT|[A-Z]{2,4})\b`
→ `[DATE]`.  The timezone alternation reduces to `[A-Z]{2,4}\b`: each named
zone is an uppercase 3-letter literal, and `\b` after an uppercase letter
holds exactly when the maximal uppercase run ends there. -/
def m_httpDate : Matcher := fun _ cs =>
  match expectDay cs with
  | none => none
  | some r1 =>
  match expect ',' r1 with
  | none => none
  | some r2 =>
  match runBetween isSpaceChar 1 1000000 r2 with
  | none => none
  | some r3 =>
  match runBetween Char.isDigit 1 2 r3 with
  | none => none
  | some r4 =>
  match runBetween isSpaceChar 1 1000000 r4 with
  | none => none
  | some r5 =>
  match expectMonth r5 with
  | none => none
  | some r6 =>
  match runBetween isSpaceChar 1 1000000 r6 with
  | none => none
  | some r7 =>
  match runBetween Char.isDigit 4 4 r7 with
  | none => none
  | some r8 =>
  match runBetween isSpaceChar 1 1000000 r8 with
  | none => none
  | some r9 =>
  match runBetween Char.isDigit 2 2 r9 with
  | none => none
  | some r10 =>
  match expect ':' r10 with
  | none => none
  | some r11 =>
  match runBetween Char.isDigit 2 2 r11 with
  | none => none
  | some r12 =>
  match expect ':' r12 with
  | none => none
  | some r13 =>
  match runBetween Char.isDigit 2 2 r13 with
  | none => none
  | some r14 =>
  match runBetween isSpaceChar 1 1000000 r14 with
  | none => none
  | some r15 =>
  match runBetween Char.isUpper 2 4 r15 with
  | none => none
  | some r16 =>
  if notWordNext r16 then some ("[DATE]".toList, r16) else none

/-- The prefix `\d{4}-` shared by the two ISO date patterns. -/
def dateHead (cs : List Char) : Option (List Char) :=
  (takeExactly Char.isDigit 4 cs).bind (expect '-')

/-- Pattern 2b: `\d{4}-\d{2}-\d{2}T\d{2}:\d{2}:\d{2}(?:\.\d+)?(?:Z|[+-]\d{2}:\d{2})?`
→ `[DATE]`.  Both option groups are greedy; neither can steal characters
from the other (fraction digits cannot start a zone). -/
def m_isoDateTime : Matcher := fun _ cs =>
  match dateHead cs with
  | none => none
  | some r1 =>
  match takeExactly Char.isDigit 2 r1 with
  | none => none
  | some r2 =>
  match expect '-' r2 with
  | none => none
  | some r3 =>
  match takeExactly Char.isDigit 2 r3 with
  | none => none
  | some r4 =>
  match expect 'T' r4 with
  | none => none
  | some r5 =>
  match takeExactly Char.isDigit 2 r5 with
  | none => none
  | some r6 =>
  match expect ':' r6 with
  | none => none
  | some r7 =>
  match takeExactly Char.isDigit 2 r7 with
  | none => none
  | some r8 =>
  match expect ':' r8 with
  | none => none
  | some r9 =>
  match takeExactly Char.isDigit 2 r9 with
  | none => none
  | some r10 =>
  let r11 :=
    match expect '.' r10 with
    | some rf =>
      let d := takeRun Char.isDigit rf
      if d.1.isEmpty then r10 else d.2
    | none => r10
  let r12 :=
    match r11 with
    | c :: rest =>
      if c = 'Z' then rest
      else if c = '+' || c = '-' then
        match (takeExactly Char.isDigit 2 rest).bind (expect ':') |>.bind
            (takeExactly Char.isDigit 2) with
        | some rr => rr
        | none => r11
      else r11
    | [] => r11
  some ("[DATE]".toList, r12)

/-- Pattern 2c: `\d{4}-\d{2}-\d{2}` → `[DATE]`. -/
def m_isoDate : Matcher := fun _ cs =>
  match dateHead cs with
  | none => none
  | some r1 =>
  match takeExactly Char.isDigit 2 r1 with
  | none => none
  | some r2 =>
  match expect '-' r2 with
  | none => none
  | some r3 =>
  match takeExactly Char.isDigit 2 r3 with
  | none => none
  | some r4 => some ("[DATE]".toList, r4)

/-- Pattern 2d: `\d{2}\/\d{2}\/\d{4}` → `[DATE]`. -/
def m_slashDate : Matcher := fun _ cs =>
  match takeExactly Char.isDigit 2 cs with
  | none => none
  | some r1 =>
  match expect '/' r1 with
  | none => none
  | some r2 =>
  match takeExactly Char.isDigit 2 r2 with
  | none => none
  | some r3 =>
  match expect '/' r3 with
  | none => none
  | some r4 =>
  match takeExactly Char.isDigit 4 r4 with
  | none => none
  | some r5 => some ("[DATE]".toList, r5)

/-- Pattern 3: the UUID
`[0-9a-fA-F]{8}-[0-9a-fA-F]{4}-[0-9a-fA-F]{4}-[0-9a-fA-F]{4}-[0-9a-fA-F]{12}`
→ `[UUID]`. -/
def m_uuid : Matcher := fun _ cs =>
  match takeExactly isHexChar 8 cs with
  | none => none
  | some r1 =>
  match expect '-' r1 with
  | none => none
  | some r2 =>
  match takeExactly isHexChar 4 r2 with
  | none => none
  | some r3 =>
  match expect '-' r3 with
  | none => none
  | some r4 =>
  match takeExactly isHexChar 4 r4 with
  | none => none
  | some r5 =>
  match expect '-' r5 with
  | none => none
  | some r6 =>
  match takeExactly isHexChar 4 r6 with
  | none => none
  | some r7 =>
  match expect '-' r7 with
  | none => none
  | some r8 =>
  match takeExactly isHexChar 12 r8 with
  | none => none
  | some r9 => some ("[UUID]".toList, r9)

/-- Pattern 3.5: `"id"\s*:\s*"[A-Za-z0-9]{10,}"` → `"id":"[JSON_ID]"`. -/
def m_jsonId : Matcher := fun _ cs =>
  match expectStr "\"id\"".toList cs with
  | none => none
  | some r1 =>
  match expect ':' (takeRun isSpaceChar r1).2 with
  | none => none
  | some r3 =>
  match expect '"' (takeRun isSpaceChar r3).2 with
  | none => none
  | some r5 =>
  let v := takeRun Char.isAlphanum r5
  if 10 ≤ v.1.length then
    match expect '"' v.2 with
    | none => none
    | some r6 => some ("\"id\":\"[JSON_ID]\"".toList, r6)
  else none

/-- Pattern 4: `[A-Z]+-\d+` → `[CASE_ID]`. -/
def m_caseId : Matcher := fun _ cs =>
  let u := takeRun Char.isUpper cs
  if u.1.isEmpty then none
  else
    match expect '-' u.2 with
    | none => none
    | some r1 =>
      let d := takeRun Char.isDigit r1
      if d.1.isEmpty then none else some ("[CASE_ID]".toList, d.2)

/-- Pattern 5: `\b\d{6,}\b` → `[ID]`.  The match starts on a digit (a word
character), so the left `\b` holds iff the previous character is absent or
non-word; the right `\b` holds iff the character after the maximal digit run
is absent or non-word (an inner split leaves digit against digit). -/
def m_longDigits : Matcher := fun prev cs =>
  let d := takeRun Char.isDigit cs
  if d.1.isEmpty then none
  else if isWordOpt prev then none
  else if 6 ≤ d.1.length && notWordNext d.2 then some ("[ID]".toList, d.2)
  else none

/-- Backtracking for `[A-Z|a-z]{2,}\b`: walking the reversed maximal TLD run
(`next` is the character after the currently tried end), return the longest
prefix length `k ≥ 2` whose last character sits on a word boundary. -/
def tldK : List Char → Option Char → Nat → Option Nat
  | [], _, _ => none
  | c :: rs, next, len =>
    if 2 ≤ len && boundary (some c) next then some len
    else tldK rs (some c) (len - 1)

/-- Match `[A-Z|a-z]{2,}\b` at `t`, returning the remainder. -/
def matchTld (t : List Char) : Option (List Char) :=
  let r := takeRun isTldChar t
  match tldK r.1.reverse r.2.head? r.1.length with
  | some k => some (r.1.drop k ++ r.2)
  | none => none

/-- Pattern 6 helper: try every `\.` split point of the maximal domain run,
rightmost (longest `[A-Za-z0-9.-]+`) first; `ds` excludes the first domain
character, so every split leaves a non-empty domain part. -/
def emailDomainTail : List Char → List Char → Option (List Char)
  | [], _ => none
  | c :: ds, rest =>
    match emailDomainTail ds rest with
    | some r => some r
    | none => if c = '.' then matchTld (ds ++ rest) else none

/-- Pattern 6: `\b[A-Za-z0-9._%+-]+@[A-Za-z0-9.-]+\.[A-Z|a-z]{2,}\b`
→ `[EMAIL]`. -/
def m_email : Matcher := fun prev cs =>
  let loc := takeRun isLocalChar cs
  if loc.1.isEmpty then none
  else if !boundary prev cs.head? then none
  else
    match expect '@' loc.2 with
    | none => none
    | some r1 =>
      let dom := takeRun isDomainChar r1
      match dom.1 with
      | [] => none
      | _ :: drest =>
        match emailDomainTail drest dom.2 with
        | some r => some ("[EMAIL]".toList, r)
        | none => none

/-- Pattern 7: `\b\d{1,3}\.\d{1,3}\.\d{1,3}\.\d{1,3}\b` → `[IP]`.
Each `\d{1,3}` is followed by `\.` or `\b`, which no digit satisfies, so
each group must be a maximal run of length 1–3. -/
def m_ip : Matcher := fun prev cs =>
  if !boundary prev cs.head? then none
  else
  match runBetween Char.isDigit 1 3 cs with
  | none => none
  | some r1 =>
  match expect '.' r1 with
  | none => none
  | some r2 =>
  match runBetween Char.isDigit 1 3 r2 with
  | none => none
  | some r3 =>
  match expect '.' r3 with
  | none => none
  | some r4 =>
  match runBetween Char.isDigit 1 3 r4 with
  | none => none
  | some r5 =>
  match expect '.' r5 with
  | none => none
  | some r6 =>
  match runBetween Char.isDigit 1 3 r6 with
  | none => none
  | some r7 =>
  if notWordNext r7 then some ("[IP]".toList, r7) else none

/-- Pattern 8a: `[A-Za-z]:\\[^\s<>"|?*]+` → `[FILE_PATH]`. -/
def m_winPath : Matcher := fun _ cs =>
  match cs with
  | c :: rest =>
    if c.isAlpha then
      match (expect ':' rest).bind (expect '\\') with
      | some r1 =>
        let run := takeRun isPathChar r1
        if run.1.isEmpty then none else some ("[FILE_PATH]".toList, run.2)
      | none => none
    else none
  | [] => none

/-- Pattern 8b: `\/[^\s<>"|?*]{2,}` → `[FILE_PATH]`. -/
def m_unixPath : Matcher := fun _ cs =>
  match expect '/' cs with
  | none => none
  | some r1 =>
    let run := takeRun isPathChar r1
    if 2 ≤ run.1.length then some ("[FILE_PATH]".toList, run.2) else none

/-- Pattern 9a: `\/[A-Za-z0-9_-]{15,}\*\//` → `/[SESSION_ID]*/`. -/
def m_sessionId : Matcher := fun _ cs =>
  match expect '/' cs with
  | none => none
  | some r1 =>
    let run := takeRun isSessChar r1
    if 15 ≤ run.1.length then
      match (expect '*' run.2).bind (expect '/') with
      | some r3 => some ("/[SESSION_ID]*/".toList, r3)
      | none => none
    else none

/-- Shared prefix `([?&])([a-zA-Z_]+)=` of the query-parameter patterns;
returns the separator, the key and the remainder. -/
def queryHead (cs : List Char) : Option (Char × List Char × List Char) :=
  match cs with
  | sep :: rest =>
    if sep = '?' || sep = '&' then
      let key := takeRun isKeyChar rest
      if key.1.isEmpty then none
      else (expect '=' key.2).map (fun r => (sep, key.1, r))
    else none
  | [] => none

/-- Pattern 9b: `([?&])([a-zA-Z_]+)=[A-Fa-f0-9]{20,}` → `$1$2=[HEX_ID]`. -/
def m_queryHexId : Matcher := fun _ cs =>
  match queryHead cs with
  | none => none
  | some (sep, key, r1) =>
    let v := takeRun isHexChar r1
    if 20 ≤ v.1.length then some (sep :: key ++ "=[HEX_ID]".toList, v.2)
    else none

/-- Pattern 9c: `([?&])([a-zA-Z_]+)=[A-Za-z0-9]{15,}` → `$1$2=[LONG_ID]`. -/
def m_queryLongId : Matcher := fun _ cs =>
  match queryHead cs with
  | none => none
  | some (sep, key, r1) =>
    let v := takeRun Char.isAlphanum r1
    if 15 ≤ v.1.length then some (sep :: key ++ "=[LONG_ID]".toList, v.2)
    else none

/-- Pattern 9d: `([?&])([a-zA-Z_]+)=\d{5,}` → `$1$2=[NUM_PARAM]`. -/
def m_queryNum : Matcher := fun _ cs =>
  match queryHead cs with
  | none => none
  | some (sep, key, r1) =>
    let v := takeRun Char.isDigit r1
    if 5 ≤ v.1.length then some (sep :: key ++ "=[NUM_PARAM]".toList, v.2)
    else none

/-- Pattern 9e: `([?&])([a-zA-Z_]+)=%[0-9A-Fa-f]{2,}[^\s&]*`
→ `$1$2=[ENCODED_PARAM]`.  Hex characters are also `[^\s&]`, so the match
extends to the maximal run of non-space non-`&` characters after the `%`,
provided that run starts with two hex characters. -/
def m_queryEncoded : Matcher := fun _ cs =>
  match queryHead cs with
  | none => none
  | some (sep, key, r1) =>
  match expect '%' r1 with
  | none => none
  | some r2 =>
    let v := takeRun (fun c => !(isSpaceChar c || c = '&')) r2
    match v.1 with
    | a :: b :: _ =>
      if isHexChar a && isHexChar b then
        some (sep :: key ++ "=[ENCODED_PARAM]".toList, v.2)
      else none
    | _ => none

/-- A value boundary `[&\s]|$`: end of input, `&`, or whitespace. -/
def isValueEnd : List Char → Bool
  | [] => true
  | c :: _ => c = '&' || isSpaceChar c

/-- The lookahead body `(?:true|false|1|0|yes|no)(?=[&\s]|$)`. -/
def flagAhead (t : List Char) : Bool :=
  ["true".toList, "false".toList, "1".toList, "0".toList,
   "yes".toList, "no".toList].any fun f =>
    match expectStr f t with
    | some rest => isValueEnd rest
    | none => false

/-- Pattern 9f:
`([?&])([a-zA-Z_]+)=(?!(?:true|false|1|0|yes|no)(?=[&\s]|$))([A-Za-z0-9_-]+)(?=[&\s]|$)`
→ `$1$2=[QUERY_VALUE]`. -/
def m_queryValue : Matcher := fun _ cs =>
  match queryHead cs with
  | none => none
  | some (sep, key, r1) =>
    if flagAhead r1 then none
    else
      let v := takeRun isValueChar r1
      if !v.1.isEmpty && isValueEnd v.2 then
        some (sep :: key ++ "=[QUERY_VALUE]".toList, v.2)
      else none

/-- Pattern 9g: `(https?:\/\/[^\s?]+)\?[^\s]+` → `$1?[QUERY_PARAMS]`. -/
def m_wholeQuery : Matcher := fun _ cs =>
  match expectStr "http".toList cs with
  | none => none
  | some r1 =>
  let sm : Option (List Char × List Char) :=
    match expectStr "s://".toList r1 with
    | some r => some ("s://".toList, r)
    | none => (expectStr "://".toList r1).map (fun r => ("://".toList, r))
  match sm with
  | none => none
  | some (mid, r2) =>
  let host := takeRun (fun c => !(isSpaceChar c || c = '?')) r2
  if host.1.isEmpty then none
  else
    match expect '?' host.2 with
    | none => none
    | some r3 =>
      let q := takeRun (fun c => !isSpaceChar c) r3
      if q.1.isEmpty then none
      else some ("http".toList ++ mid ++ host.1 ++ "?[QUERY_PARAMS]".toList, q.2)

/-- Pattern 10: `[A-Za-z0-9_$\[\];.]+@[0-9a-fA-F]{4,}\b` → `[OBJECT_REF]`. -/
def m_objectRef : Matcher := fun _ cs =>
  let run := takeRun isObjChar cs
  if run.1.isEmpty then none
  else
    match expect '@' run.2 with
    | none => none
    | some r1 =>
      let h := takeRun isHexChar r1
      if 4 ≤ h.1.length && notWordNext h.2 then
        some ("[OBJECT_REF]".toList, h.2)
      else none

/-- Pattern 11: `\b0x[0-9a-fA-F]+\b` → `[HEX]`. -/
def m_hexLit : Matcher := fun prev cs =>
  if !boundary prev cs.head? then none
  else
    match expectStr "0x".toList cs with
    | none => none
    | some r1 =>
      let h := takeRun isHexChar r1
      if !h.1.isEmpty && notWordNext h.2 then some ("[HEX]".toList, h.2)
      else none

/-- The 23 replacement passes of `normalizeErrorPattern`, in source order. -/
def normalizeRules : List Matcher :=
  [m_parenIdx, m_brackIdx,
   m_httpDate, m_isoDateTime, m_isoDate, m_slashDate,
   m_uuid, m_jsonId, m_caseId, m_longDigits, m_email, m_ip,
   m_winPath, m_unixPath,
   m_sessionId, m_queryHexId, m_queryLongId, m_queryNum, m_queryEncoded,
   m_queryValue, m_wholeQuery,
   m_objectRef, m_hexLit]

def normalizeSteps (cs : List Char) : List Char :=
  normalizeRules.foldl (fun s m => replaceAll m s) cs

/-- The argument type of the TS function
`normalizeErrorPattern(message: string | null | undefined)`. -/
inductive MessageInput where
  | undef : MessageInput
  | null : MessageInput
  | str : String → MessageInput

/-- The function `normalizeErrorPattern`: `if (!message || typeof message !== 'string')
return message || '';` then the 23 replacements.  `null`, `undefined` and
`""` are all falsy, so each early-returns `''`. -/
def normalizeErrorPattern : MessageInput → String
  | .undef => ""
  | .null => ""
  | .str s => if s = "" then "" else String.mk (normalizeSteps s.data)

/-! ## Waterfall classifier

The grouping engine (`log_grouper.py`) is not among the repository sources;
only `docs/Grouping.md` ("The Waterfall Logic") and the specification
describe it.  The classifier is therefore modelled from the spec. -/

/-- A log record as seen by the classifier: the classification-relevant
fields, each possibly absent. -/
structure LogRecord where
  message : Option String
  loggerName : Option String
  exceptionClass : Option String
  ruleName : Option String
  ruleType : Option String

inductive ClassificationLevel where
  | RuleFailure : ClassificationLevel
  | LoggerPattern : ClassificationLevel
  | Unclassified : ClassificationLevel
deriving DecidableEq

/-- Level 1 trigger: the record has `Exception`, `RuleName` and `RuleType`. -/
def level1Matches (r : LogRecord) : Bool :=
  r.exceptionClass.isSome && r.ruleName.isSome && r.ruleType.isSome

/-- Level 2 trigger: the record has a `LoggerName` and a non-empty
`Message`. -/
def level2Matches (r : LogRecord) : Bool :=
  r.loggerName.isSome &&
    (match r.message with
     | some m => !(m = "")
     | none => false)

/-- Modelled from the spec: the exclusive waterfall of
`docs/Grouping.md` — "A log is checked against criteria from top to bottom;
once matched, it stops."  Level 1 (RuleFailure), then Level 2
(LoggerPattern), then the Level 3 fallback (Unclassified). -/
def waterfallClassify (r : LogRecord) : ClassificationLevel :=
  if level1Matches r then .RuleFailure
  else if level2Matches r then .LoggerPattern
  else .Unclassified

/-! ## Diagnosis status values in the operator UI -/

/-- The status value set of the specification's diagnosis state machine. -/
def specStatusValues : List String :=
  ["PENDING", "IN_PROCESS", "RESOLVED", "IGNORE", "DIAGNOSIS_COMPLETED",
   "FALSE_POSITIVE"]

/-- The options of the status `<select>` in the `InspectionModal`
component. -/
def inspectionModalStatusOptions : List String :=
  ["PENDING", "IN PROCESS", "RESOLVED", "IGNORE", "DIAGNOSIS COMPLETED"]

/-- The options of the per-row status `<select>` in `GroupingStudio.tsx`. -/
def groupingStudioStatusOptions : List String :=
  ["PENDING", "IN PROCESS", "RESOLVED", "FALSE POSITIVE", "IGNORE",
   "COMPLETED"]

/-- The initial `statusOptions` state of `Dashboard.tsx` (the fetched list
is installed only after `FALSE POSITIVE` is filtered out). -/
def dashboardStatusOptions : List String :=
  ["PENDING", "IN PROCESS", "RESOLVED", "IGNORE", "DIAGNOSIS COMPLETED"]

/-- The status a newly created group document carries, per the
`docs/Grouping.md` output schema (`"status": "PENDING"`); also the fallback
the UI substitutes for a missing status. -/
def newGroupDiagnosisStatus : String := "PENDING"

/-! ## Checkpointed batch scanning

`log_grouper.py` is not among the sources; the page/flush/checkpoint cycle
is modelled from the spec (§4.4–§4.5) and `docs/Grouping.md`
("Checkpointing"): a pass reads the records strictly above the checkpoint
once, pages through them in fixed-size units, flushes each page's
per-fingerprint count deltas as additive upserts, and advances the
checkpoint to the page's last timestamp only after the flush. -/

/-- A source record, reduced to what aggregation needs: its (ingestion)
timestamp and the fingerprint its classification produces. -/
structure GroupRecord where
  ts : Nat
  fp : Nat

/-- Per-fingerprint count delta contributed by one page. -/
def pageDelta (page : List GroupRecord) (f : Nat) : Nat :=
  (page.filter (fun r => r.fp = f)).length

/-- Additive upsert of one page's aggregate into the group store. -/
def flushPage (store : Nat → Nat) (page : List GroupRecord) : Nat → Nat :=
  fun f => store f + pageDelta page f

/-- The store plus the persisted checkpoint. -/
structure ScanState where
  store : Nat → Nat
  checkpoint : Nat

/-- Timestamp of a page's last record (the checkpoint it advances to). -/
def pageLast (page : List GroupRecord) (dflt : Nat) : Nat :=
  match page.getLast? with
  | some r => r.ts
  | none => dflt

/-- The page loop of one pass over an already-read cursor remainder: flush
the next `batch`-sized page, advance the checkpoint, continue.  The first
argument both bounds the recursion and counts the pages processed, so the
same loop run with a small first argument is a pass aborted after that many
page flushes (before the next flush). -/
def passLoop (batch : Nat) : Nat → ScanState → List GroupRecord → ScanState
  | 0, st, _ => st
  | _ + 1, st, [] => st
  | pages + 1, st, rem =>
    passLoop batch pages
      ⟨flushPage st.store (rem.take batch), pageLast (rem.take batch) st.checkpoint⟩
      (rem.drop batch)

/-- The records a pass reads: strictly after the checkpoint. -/
def remainingAfter (cp : Nat) (src : List GroupRecord) : List GroupRecord :=
  src.filter (fun r => cp < r.ts)

/-- One uninterrupted pass: read the cursor once, then page to exhaustion
(`src.length` pages always suffice). -/
def runPass (batch : Nat) (st : ScanState) (src : List GroupRecord) :
    ScanState :=
  passLoop batch src.length st (remainingAfter st.checkpoint src)

/-- A pass aborted after `k` flushed pages, before the next flush. -/
def abortedPass (batch k : Nat) (st : ScanState) (src : List GroupRecord) :
    ScanState :=
  passLoop batch k st (remainingAfter st.checkpoint src)

/-! ## Scanner and parser lemmas -/

theorem scanAux_nil (m : Matcher) (fuel : Nat) (prev : Option Char) :
    scanAux m fuel prev [] = [] := by
  cases fuel <;> rfl

/-- A pass whose matcher fails at every suffix is the identity. -/
theorem scanAux_id (m : Matcher) :
    ∀ (fuel : Nat) (cs : List Char) (prev : Option Char),
      (∀ prev' t, t <:+ cs → m prev' t = none) →
      scanAux m fuel prev cs = cs := by
  intro fuel
  induction fuel with
  | zero => intro cs prev _; rfl
  | succ n ih =>
    intro cs prev h
    cases cs with
    | nil => rfl
    | cons c cs' =>
      have hm := h prev (c :: cs') (List.suffix_refl _)
      have ih' := ih cs' (some c)
        (fun prev' t ht => h prev' t (ht.trans (List.suffix_cons c cs')))
      simp [scanAux, hm, ih']

theorem replaceAll_id {m : Matcher} {cs : List Char}
    (h : ∀ prev t, t <:+ cs → m prev t = none) : replaceAll m cs = cs :=
  scanAux_id m cs.length cs none h

/-- A matcher that consumes the whole input at the first position
determines the pass. -/
theorem replaceAll_total_match {m : Matcher} {cs rep : List Char}
    (hne : cs ≠ []) (h : m none cs = some (rep, [])) :
    replaceAll m cs = rep := by
  cases cs with
  | nil => exact absurd rfl hne
  | cons c cs' =>
    show scanAux m (cs'.length + 1) none (c :: cs') = rep
    simp [scanAux, h, scanAux_nil]

/-- A matcher that fires at the first position and never again afterwards. -/
theorem replaceAll_match_then_id {m : Matcher} {cs rep rest : List Char}
    (hne : cs ≠ []) (h : m none cs = some (rep, rest))
    (hrest : ∀ prev t, t <:+ rest → m prev t = none) :
    replaceAll m cs = rep ++ rest := by
  cases cs with
  | nil => exact absurd rfl hne
  | cons c cs' =>
    show scanAux m (cs'.length + 1) none (c :: cs') = rep ++ rest
    simp [scanAux, h, scanAux_id m cs'.length rest _ hrest]

theorem takeRun_exact (p : Char → Bool) {as bs : List Char}
    (h1 : ∀ c ∈ as, p c = true)
    (h2 : ∀ b, bs.head? = some b → p b = false) :
    takeRun p (as ++ bs) = (as, bs) := by
  induction as with
  | nil =>
    cases bs with
    | nil => rfl
    | cons b bs' => simp [takeRun, h2 b rfl]
  | cons a as ih =>
    have ha : p a = true := h1 a (List.mem_cons_self a as)
    have := ih (fun c hc => h1 c (List.mem_cons_of_mem a hc))
    simp [takeRun, ha, this]

theorem takeRun_all (p : Char → Bool) {as : List Char}
    (h1 : ∀ c ∈ as, p c = true) : takeRun p as = (as, []) := by
  have h2 : ∀ b, ([] : List Char).head? = some b → p b = false := by
    intro b hb
    simp at hb
  have := @takeRun_exact p as [] h1 h2
  simpa using this

theorem takeRun_head_false (p : Char → Bool) {cs : List Char}
    (h : ∀ c, cs.head? = some c → p c = false) : takeRun p cs = ([], cs) := by
  cases cs with
  | nil => rfl
  | cons c cs' => simp [takeRun, h c rfl]

/-- Decomposition of the input along a successful `takeExactly`. -/
theorem takeExactly_some (p : Char → Bool) :
    ∀ (n : Nat) {cs rest : List Char}, takeExactly p n cs = some rest →
      ∃ pre, cs = pre ++ rest ∧ pre.length = n ∧ ∀ c ∈ pre, p c = true := by
  intro n
  induction n with
  | zero =>
    intro cs rest h
    simp only [takeExactly, Option.some.injEq] at h
    subst h
    exact ⟨[], rfl, rfl, by intro c hc; cases hc⟩
  | succ k ih =>
    intro cs rest h
    cases cs with
    | nil => simp [takeExactly] at h
    | cons c cs' =>
      by_cases hc : p c = true
      · simp [takeExactly, hc] at h
        obtain ⟨pre, hpre, hlen, hall⟩ := ih h
        exact ⟨c :: pre, by simp [hpre], by simp [hlen],
          by intro d hd; rcases List.mem_cons.mp hd with rfl | hd
             · exact hc
             · exact hall d hd⟩
      · simp [takeExactly, hc] at h

theorem expect_some {a : Char} {cs rest : List Char}
    (h : expect a cs = some rest) : cs = a :: rest := by
  cases cs with
  | nil => simp [expect] at h
  | cons c cs' =>
    by_cases hc : c = a
    · subst hc; simpa [expect] using congrArg (c :: ·) (by simpa [expect] using h)
    · simp [expect, hc] at h

theorem expectStr_some :
    ∀ {pat cs rest : List Char}, expectStr pat cs = some rest →
      cs = pat ++ rest := by
  intro pat
  induction pat with
  | nil =>
    intro cs rest h
    simp only [expectStr, Option.some.injEq] at h
    simp [h]
  | cons a as ih =>
    intro cs rest h
    cases cs with
    | nil => simp [expectStr] at h
    | cons c cs' =>
      by_cases hc : c = a
      · subst hc
        simp [expectStr] at h
        simpa using ih h
      · simp [expectStr, hc] at h

theorem expectAlt_some :
    ∀ {lits : List (List Char)} {cs rest : List Char},
      expectAlt lits cs = some rest → ∃ l ∈ lits, cs = l ++ rest := by
  intro lits
  induction lits with
  | nil => intro cs rest h; simp [expectAlt] at h
  | cons l ls ih =>
    intro cs rest h
    cases hl : expectStr l cs with
    | some r =>
      rw [expectAlt, hl] at h
      obtain rfl : r = rest := by simpa using h
      exact ⟨l, List.mem_cons_self l ls, expectStr_some hl⟩
    | none =>
      rw [expectAlt, hl] at h
      obtain ⟨l', hl', heq⟩ := ih h
      exact ⟨l', List.mem_cons_of_mem l hl', heq⟩

/-! ## Character class disjointness -/

theorem isUpper_false_of_isDigit {c : Char} (h : c.isDigit = true) :
    c.isUpper = false := by
  rw [Bool.eq_false_iff]
  intro hu
  simp only [Char.isDigit, Char.isUpper, ge_iff_le, Bool.and_eq_true,
    decide_eq_true_eq, UInt32.le_def, BitVec.le_def] at h hu
  have e1 : ((48 : UInt32).toBitVec).toNat = 48 := rfl
  have e2 : ((57 : UInt32).toBitVec).toNat = 57 := rfl
  have e3 : ((65 : UInt32).toBitVec).toNat = 65 := rfl
  have e4 : ((90 : UInt32).toBitVec).toNat = 90 := rfl
  omega

theorem isDigit_false_of_isUpper {c : Char} (h : c.isUpper = true) :
    c.isDigit = false := by
  rw [Bool.eq_false_iff]
  intro hd
  exact absurd h (by rw [isUpper_false_of_isDigit hd]; simp)

theorem isLower_false_of_isUpper {c : Char} (h : c.isUpper = true) :
    c.isLower = false := by
  rw [Bool.eq_false_iff]
  intro hl
  simp only [Char.isLower, Char.isUpper, ge_iff_le, Bool.and_eq_true,
    decide_eq_true_eq, UInt32.le_def, BitVec.le_def] at h hl
  have e1 : ((97 : UInt32).toBitVec).toNat = 97 := rfl
  have e2 : ((122 : UInt32).toBitVec).toNat = 122 := rfl
  have e3 : ((65 : UInt32).toBitVec).toNat = 65 := rfl
  have e4 : ((90 : UInt32).toBitVec).toNat = 90 := rfl
  omega

theorem isLower_false_of_isDigit {c : Char} (h : c.isDigit = true) :
    c.isLower = false := by
  rw [Bool.eq_false_iff]
  intro hl
  simp only [Char.isDigit, Char.isLower, ge_iff_le, Bool.and_eq_true,
    decide_eq_true_eq, UInt32.le_def, BitVec.le_def] at h hl
  have e1 : ((48 : UInt32).toBitVec).toNat = 48 := rfl
  have e2 : ((57 : UInt32).toBitVec).toNat = 57 := rfl
  have e3 : ((97 : UInt32).toBitVec).toNat = 97 := rfl
  have e4 : ((122 : UInt32).toBitVec).toNat = 122 := rfl
  omega

/-- A suffix of `L ++ M` is a nonempty suffix of `L` glued to `M`, or a
suffix of `M`. -/
theorem suffix_split {M t : List Char} :
    ∀ L : List Char, t <:+ L ++ M →
      (∃ L', L' <:+ L ∧ L' ≠ [] ∧ t = L' ++ M) ∨ t <:+ M := by
  intro L
  induction L with
  | nil => intro h; exact Or.inr h
  | cons a L ih =>
    intro h
    rw [List.cons_append] at h
    rcases List.suffix_cons_iff.mp h with rfl | h
    · exact Or.inl ⟨a :: L, List.suffix_refl _, by simp, by simp⟩
    · rcases ih h with ⟨L', hs, hne, heq⟩ | h'
      · exact Or.inl ⟨L', hs.trans (List.suffix_cons a L), hne, heq⟩
      · exact Or.inr h'

/-! ## Per-matcher no-match and action lemmas -/

theorem m_parenIdx_none {prev : Option Char} {t : List Char}
    (h : ∀ c ∈ t, ¬c = '(') : m_parenIdx prev t = none := by
  cases t with
  | nil => rfl
  | cons c rest => simp [m_parenIdx, h c (List.mem_cons_self c rest)]

theorem m_brackIdx_none {prev : Option Char} {t : List Char}
    (h : ∀ c ∈ t, ¬c = '[') : m_brackIdx prev t = none := by
  cases t with
  | nil => rfl
  | cons c rest => simp [m_brackIdx, h c (List.mem_cons_self c rest)]

/-- Every weekday literal starts with an uppercase letter and continues
with a lowercase one; a string lacking either kind of character cannot
start with one. -/
theorem expectDay_none {t : List Char}
    (h : (∀ c ∈ t, c.isLower = false) ∨ (∀ c ∈ t, c.isUpper = false)) :
    expectDay t = none := by
  cases hd : expectDay t with
  | none => rfl
  | some r =>
    exfalso
    obtain ⟨l, hl, heq⟩ := expectAlt_some hd
    simp only [dayLits, List.mem_cons, List.not_mem_nil, or_false] at hl
    rcases hl with rfl | rfl | rfl | rfl | rfl | rfl | rfl <;>
      rcases h with h | h
    · exact absurd (h 'o' (by rw [heq]; simp)) (by decide)
    · exact absurd (h 'M' (by rw [heq]; simp)) (by decide)
    · exact absurd (h 'u' (by rw [heq]; simp)) (by decide)
    · exact absurd (h 'T' (by rw [heq]; simp)) (by decide)
    · exact absurd (h 'e' (by rw [heq]; simp)) (by decide)
    · exact absurd (h 'W' (by rw [heq]; simp)) (by decide)
    · exact absurd (h 'h' (by rw [heq]; simp)) (by decide)
    · exact absurd (h 'T' (by rw [heq]; simp)) (by decide)
    · exact absurd (h 'r' (by rw [heq]; simp)) (by decide)
    · exact absurd (h 'F' (by rw [heq]; simp)) (by decide)
    · exact absurd (h 'a' (by rw [heq]; simp)) (by decide)
    · exact absurd (h 'S' (by rw [heq]; simp)) (by decide)
    · exact absurd (h 'u' (by rw [heq]; simp)) (by decide)
    · exact absurd (h 'S' (by rw [heq]; simp)) (by decide)

theorem m_httpDate_none {prev : Option Char} {t : List Char}
    (h : (∀ c ∈ t, c.isLower = false) ∨ (∀ c ∈ t, c.isUpper = false)) :
    m_httpDate prev t = none := by
  rw [m_httpDate, expectDay_none h]

theorem dateHead_some {t rest : List Char} (h : dateHead t = some rest) :
    ∃ pre, t = pre ++ '-' :: rest ∧ pre.length = 4 ∧
      ∀ c ∈ pre, c.isDigit = true := by
  rw [dateHead] at h
  cases h4 : takeExactly Char.isDigit 4 t with
  | none => rw [h4] at h; simp at h
  | some r1 =>
    rw [h4] at h
    simp only [Option.some_bind'] at h
    obtain ⟨pre, hpre, hlen, hall⟩ := takeExactly_some _ _ h4
    exact ⟨pre, by rw [hpre, expect_some h], hlen, hall⟩

theorem dateHead_none_headNotDigit {t : List Char}
    (h : ∀ c, t.head? = some c → c.isDigit = false) : dateHead t = none := by
  cases t with
  | nil => rfl
  | cons c rest =>
    have h4 : takeExactly Char.isDigit 4 (c :: rest) = none := by
      show (if Char.isDigit c then takeExactly Char.isDigit 3 rest else none) =
        none
      rw [h c rfl]
      rfl
    rw [dateHead, h4]
    rfl

theorem dateHead_none_noHyphen {t : List Char} (h : '-' ∉ t) :
    dateHead t = none := by
  cases hd : dateHead t with
  | none => rfl
  | some r =>
    exfalso
    obtain ⟨pre, heq, -, -⟩ := dateHead_some hd
    exact h (by rw [heq]; simp)

theorem m_isoDateTime_none {prev : Option Char} {t : List Char}
    (h : dateHead t = none) : m_isoDateTime prev t = none := by
  rw [m_isoDateTime, h]

theorem m_isoDate_none {prev : Option Char} {t : List Char}
    (h : dateHead t = none) : m_isoDate prev t = none := by
  rw [m_isoDate, h]

theorem m_slashDate_none {prev : Option Char} {t : List Char}
    (h : '/' ∉ t) : m_slashDate prev t = none := by
  rw [m_slashDate]
  cases h2 : takeExactly Char.isDigit 2 t with
  | none => rfl
  | some r1 =>
    cases hs : expect '/' r1 with
    | none => simp [hs]
    | some r2 =>
      exfalso
      obtain ⟨pre, heq, -, -⟩ := takeExactly_some _ _ h2
      exact h (by rw [heq, expect_some hs]; simp)

theorem m_uuid_none {prev : Option Char} {t : List Char}
    (h : t.count '-' ≤ 1) : m_uuid prev t = none := by
  rw [m_uuid]
  cases h8 : takeExactly isHexChar 8 t with
  | none => rfl
  | some r1 =>
    cases hs1 : expect '-' r1 with
    | none => simp [hs1]
    | some r2 =>
      obtain ⟨pre8, heq8, -, hall8⟩ := takeExactly_some _ _ h8
      have hr1 : r1 = '-' :: r2 := expect_some hs1
      have hpre8 : '-' ∉ pre8 := by
        intro hm
        have := hall8 '-' hm
        simp [isHexChar] at this
      have hcount : t.count '-' = pre8.count '-' + (('-' : Char) :: r2).count '-' := by
        rw [heq8, hr1, List.count_append]
      have hzero : pre8.count '-' = 0 := List.count_eq_zero.mpr hpre8
      have hr2 : r2.count '-' = 0 := by
        rw [hzero, List.count_cons_self] at hcount
        omega
      have hr2mem : '-' ∉ r2 := List.count_eq_zero.mp hr2
      cases h4 : takeExactly isHexChar 4 r2 with
      | none => simp [hs1, h4]
      | some r3 =>
        cases hs2 : expect '-' r3 with
        | none => simp [hs1, h4, hs2]
        | some r4 =>
          exfalso
          obtain ⟨pre4, heq4, -, -⟩ := takeExactly_some _ _ h4
          exact hr2mem (by rw [heq4, expect_some hs2]; simp)

theorem m_jsonId_none {prev : Option Char} {t : List Char}
    (h : '"' ∉ t) : m_jsonId prev t = none := by
  rw [m_jsonId]
  cases hq : expectStr "\"id\"".toList t with
  | none => rfl
  | some r1 =>
    exfalso
    exact h (by rw [expectStr_some hq]; simp [String.toList])

theorem m_caseId_none {prev : Option Char} {t : List Char}
    (h : ∀ c, t.head? = some c → c.isUpper = false) :
    m_caseId prev t = none := by
  rw [m_caseId, takeRun_head_false Char.isUpper h]
  rfl

theorem m_caseId_match {L D : List Char} (prev : Option Char) (hL : L ≠ [])
    (hLu : ∀ c ∈ L, c.isUpper = true) (hD : D ≠ [])
    (hDd : ∀ c ∈ D, c.isDigit = true) :
    m_caseId prev (L ++ '-' :: D) = some ("[CASE_ID]".toList, []) := by
  have h1 : takeRun Char.isUpper (L ++ '-' :: D) = (L, '-' :: D) :=
    takeRun_exact Char.isUpper hLu
      (by
        intro b hb
        simp only [List.head?_cons, Option.some.injEq] at hb
        rw [← hb]
        rfl)
  have h2 : takeRun Char.isDigit D = (D, []) := takeRun_all Char.isDigit hDd
  rw [m_caseId, h1]
  simp [hL, expect, h2, hD]

theorem m_longDigits_none {prev : Option Char} {t : List Char}
    (h : ∀ c, t.head? = some c → c.isDigit = false) :
    m_longDigits prev t = none := by
  rw [m_longDigits, takeRun_head_false Char.isDigit h]
  rfl

theorem m_longDigits_match {D rest : List Char} (h6 : 6 ≤ D.length)
    (hDd : ∀ c ∈ D, c.isDigit = true)
    (hrest : ∀ c, rest.head? = some c → isWordChar c = false) :
    m_longDigits none (D ++ rest) = some ("[ID]".toList, rest) := by
  have hrest' : ∀ c, rest.head? = some c → Char.isDigit c = false := by
    intro c hc
    have := hrest c hc
    simp [isWordChar, Char.isAlphanum] at this
    exact this.1.2
  rw [m_longDigits, takeRun_exact Char.isDigit hDd hrest']
  have hDne : D ≠ [] := by
    intro h'
    rw [h'] at h6
    simp at h6
  have hnw : notWordNext rest = true := by
    cases rest with
    | nil => rfl
    | cons c r => simp [notWordNext, hrest c rfl]
  simp [hDne, isWordOpt, h6, hnw]

/-! ## Pipeline behaviour on `LETTERS-DIGITS` inputs -/

/-- On an input that is exactly uppercase letters, a hyphen and a run of six
or more digits, the first eight passes are the identity, the case-id pass
rewrites everything to `[CASE_ID]`, and the remaining passes leave that
fixed. -/
theorem normalizeSteps_case_id (L D : List Char) (hL : L ≠ [])
    (hLu : ∀ c ∈ L, c.isUpper = true) (hD6 : 6 ≤ D.length)
    (hDd : ∀ c ∈ D, c.isDigit = true) :
    normalizeSteps (L ++ '-' :: D) = "[CASE_ID]".toList := by
  have hD : D ≠ [] := by
    intro h
    rw [h] at hD6
    simp at hD6
  have hsub : ∀ {t : List Char}, t <:+ L ++ '-' :: D →
      ∀ c ∈ t, c.isUpper = true ∨ c = '-' ∨ c.isDigit = true := by
    intro t ht c hc
    have hmem : c ∈ L ++ '-' :: D := ht.sublist.subset hc
    rcases List.mem_append.mp hmem with h | h
    · exact Or.inl (hLu c h)
    · rcases List.mem_cons.mp h with rfl | h
      · exact Or.inr (Or.inl rfl)
      · exact Or.inr (Or.inr (hDd c h))
  have e1 : replaceAll m_parenIdx (L ++ '-' :: D) = L ++ '-' :: D :=
    replaceAll_id (fun prev t ht => m_parenIdx_none (fun c hc => by
      rintro rfl
      rcases hsub ht _ hc with h | h | h <;> exact absurd h (by decide)))
  have e2 : replaceAll m_brackIdx (L ++ '-' :: D) = L ++ '-' :: D :=
    replaceAll_id (fun prev t ht => m_brackIdx_none (fun c hc => by
      rintro rfl
      rcases hsub ht _ hc with h | h | h <;> exact absurd h (by decide)))
  have e3 : replaceAll m_httpDate (L ++ '-' :: D) = L ++ '-' :: D :=
    replaceAll_id (fun prev t ht => m_httpDate_none (Or.inl (fun c hc => by
      rcases hsub ht _ hc with h | h | h
      · exact isLower_false_of_isUpper h
      · rw [h]; decide
      · exact isLower_false_of_isDigit h)))
  have hdate : ∀ t : List Char, t <:+ L ++ '-' :: D → dateHead t = none := by
    intro t ht
    rcases suffix_split L ht with ⟨L', hs, hne, rfl⟩ | h'
    · apply dateHead_none_headNotDigit
      intro c hc
      cases L' with
      | nil => exact absurd rfl hne
      | cons a L'' =>
        simp only [List.cons_append, List.head?_cons, Option.some.injEq] at hc
        rw [← hc]
        exact isDigit_false_of_isUpper
          (hLu a (hs.sublist.subset (List.mem_cons_self a L'')))
    · rcases List.suffix_cons_iff.mp h' with rfl | h''
      · apply dateHead_none_headNotDigit
        intro c hc
        simp only [List.head?_cons, Option.some.injEq] at hc
        rw [← hc]
        decide
      · apply dateHead_none_noHyphen
        intro hm
        exact absurd (hDd '-' (h''.sublist.subset hm)) (by decide)
  have e4 : replaceAll m_isoDateTime (L ++ '-' :: D) = L ++ '-' :: D :=
    replaceAll_id (fun prev t ht => m_isoDateTime_none (hdate t ht))
  have e5 : replaceAll m_isoDate (L ++ '-' :: D) = L ++ '-' :: D :=
    replaceAll_id (fun prev t ht => m_isoDate_none (hdate t ht))
  have e6 : replaceAll m_slashDate (L ++ '-' :: D) = L ++ '-' :: D :=
    replaceAll_id (fun prev t ht => m_slashDate_none (fun hm => by
      rcases hsub ht _ hm with h | h | h <;> exact absurd h (by decide)))
  have hcount : (L ++ '-' :: D).count '-' ≤ 1 := by
    have hcl : L.count '-' = 0 := List.count_eq_zero.mpr (fun hm =>
      absurd (hLu '-' hm) (by decide))
    have hcd : D.count '-' = 0 := List.count_eq_zero.mpr (fun hm =>
      absurd (hDd '-' hm) (by decide))
    rw [List.count_append, List.count_cons_self, hcl, hcd]
  have e7 : replaceAll m_uuid (L ++ '-' :: D) = L ++ '-' :: D :=
    replaceAll_id (fun prev t ht =>
      m_uuid_none (le_trans (ht.sublist.count_le '-') hcount))
  have e8 : replaceAll m_jsonId (L ++ '-' :: D) = L ++ '-' :: D :=
    replaceAll_id (fun prev t ht => m_jsonId_none (fun hm => by
      rcases hsub ht _ hm with h | h | h <;> exact absurd h (by decide)))
  have e9 : replaceAll m_caseId (L ++ '-' :: D) = "[CASE_ID]".toList :=
    replaceAll_total_match (by simp) (m_caseId_match none hL hLu hD hDd)
  rw [normalizeSteps, normalizeRules]
  simp only [List.foldl_cons, List.foldl_nil]
  rw [e1, e2, e3, e4, e5, e6, e7, e8, e9]
  decide

/-! ## Pipeline behaviour on `DIGITS@example.com` inputs -/

/-- On an email whose local part is a bare run of six or more digits, the
bare-long-digit pass (which precedes the email pass) rewrites the local part
to `[ID]`; every earlier pass is the identity, and every later pass leaves
`[ID]@example.com` fixed — in particular the email pass no longer matches. -/
theorem normalizeSteps_digit_local_part (D : List Char) (hD6 : 6 ≤ D.length)
    (hDd : ∀ c ∈ D, c.isDigit = true) :
    normalizeSteps (D ++ "@example.com".toList) = "[ID]@example.com".toList := by
  have hsub : ∀ {t : List Char}, t <:+ D ++ "@example.com".toList →
      ∀ c ∈ t, c.isDigit = true ∨ c ∈ "@example.com".toList := by
    intro t ht c hc
    rcases List.mem_append.mp (ht.sublist.subset hc) with h | h
    · exact Or.inl (hDd c h)
    · exact Or.inr h
  have e1 : replaceAll m_parenIdx (D ++ "@example.com".toList) =
      D ++ "@example.com".toList :=
    replaceAll_id (fun prev t ht => m_parenIdx_none (fun c hc => by
      rintro rfl
      rcases hsub ht _ hc with h | h <;> exact absurd h (by decide)))
  have e2 : replaceAll m_brackIdx (D ++ "@example.com".toList) =
      D ++ "@example.com".toList :=
    replaceAll_id (fun prev t ht => m_brackIdx_none (fun c hc => by
      rintro rfl
      rcases hsub ht _ hc with h | h <;> exact absurd h (by decide)))
  have e3 : replaceAll m_httpDate (D ++ "@example.com".toList) =
      D ++ "@example.com".toList :=
    replaceAll_id (fun prev t ht => m_httpDate_none (Or.inr (fun c hc => by
      rcases hsub ht _ hc with h | h
      · exact isUpper_false_of_isDigit h
      · exact (show ∀ c ∈ "@example.com".toList, c.isUpper = false by decide) c h)))
  have hdate : ∀ t : List Char, t <:+ D ++ "@example.com".toList →
      dateHead t = none := by
    intro t ht
    apply dateHead_none_noHyphen
    intro hm
    rcases hsub ht _ hm with h | h <;> exact absurd h (by decide)
  have e4 : replaceAll m_isoDateTime (D ++ "@example.com".toList) =
      D ++ "@example.com".toList :=
    replaceAll_id (fun prev t ht => m_isoDateTime_none (hdate t ht))
  have e5 : replaceAll m_isoDate (D ++ "@example.com".toList) =
      D ++ "@example.com".toList :=
    replaceAll_id (fun prev t ht => m_isoDate_none (hdate t ht))
  have e6 : replaceAll m_slashDate (D ++ "@example.com".toList) =
      D ++ "@example.com".toList :=
    replaceAll_id (fun prev t ht => m_slashDate_none (fun hm => by
      rcases hsub ht _ hm with h | h <;> exact absurd h (by decide)))
  have hcount : (D ++ "@example.com".toList).count '-' = 0 :=
    List.count_eq_zero.mpr (fun hm => by
      rcases hsub (List.suffix_refl _) _ hm with h | h <;>
        exact absurd h (by decide))
  have e7 : replaceAll m_uuid (D ++ "@example.com".toList) =
      D ++ "@example.com".toList :=
    replaceAll_id (fun prev t ht =>
      m_uuid_none (le_trans (ht.sublist.count_le '-') (by rw [hcount]; exact Nat.zero_le 1)))
  have e8 : replaceAll m_jsonId (D ++ "@example.com".toList) =
      D ++ "@example.com".toList :=
    replaceAll_id (fun prev t ht => m_jsonId_none (fun hm => by
      rcases hsub ht _ hm with h | h <;> exact absurd h (by decide)))
  have e9 : replaceAll m_caseId (D ++ "@example.com".toList) =
      D ++ "@example.com".toList :=
    replaceAll_id (fun prev t ht => m_caseId_none (fun c hc => by
      have hmc : c ∈ t := by
        cases t with
        | nil => simp at hc
        | cons a t' =>
          simp only [List.head?_cons, Option.some.injEq] at hc
          rw [← hc]
          exact List.mem_cons_self a t'
      rcases hsub ht _ hmc with h | h
      · exact isUpper_false_of_isDigit h
      · exact (show ∀ c ∈ "@example.com".toList, c.isUpper = false by decide) c h))
  have hmatch : m_longDigits none (D ++ "@example.com".toList) =
      some ("[ID]".toList, "@example.com".toList) :=
    m_longDigits_match hD6 hDd (by
      intro c hc
      simp only [String.toList, List.head?_cons, Option.some.injEq] at hc
      rw [← hc]
      decide)
  have e10 : replaceAll m_longDigits (D ++ "@example.com".toList) =
      "[ID]".toList ++ "@example.com".toList :=
    replaceAll_match_then_id
      (by
        intro h
        have := congrArg List.length h
        simp at this)
      hmatch
      (fun prev t ht => m_longDigits_none (fun c hc => by
        have hmc : c ∈ t := by
          cases t with
          | nil => simp at hc
          | cons a t' =>
            simp only [List.head?_cons, Option.some.injEq] at hc
            rw [← hc]
            exact List.mem_cons_self a t'
        have : c ∈ "@example.com".toList := ht.sublist.subset hmc
        exact (show ∀ c ∈ "@example.com".toList, c.isDigit = false by decide) c this))
  rw [normalizeSteps, normalizeRules]
  simp only [List.foldl_cons, List.foldl_nil]
  rw [e1, e2, e3, e4, e5, e6, e7, e8, e9, e10]
  decide

/-! ## Checkpoint safety -/

theorem passLoop_nil (batch fuel : Nat) (st : ScanState) :
    passLoop batch fuel st [] = st := by
  cases fuel <;> rfl

/-- Any fuel of at least the cursor length computes the complete page
loop. -/
theorem passLoop_fuel (batch : Nat) (hb : 1 ≤ batch) :
    ∀ (f : Nat) (rem : List GroupRecord) (st : ScanState), rem.length ≤ f →
      passLoop batch f st rem = passLoop batch rem.length st rem := by
  intro f
  induction f using Nat.strong_induction_on with
  | _ f ih =>
    match f, ih with
    | 0, _ =>
      intro rem st h
      have : rem = [] := List.length_eq_zero.mp (Nat.le_zero.mp h)
      subst this
      rfl
    | f + 1, ih =>
      intro rem st h
      cases rem with
      | nil => rw [passLoop_nil, passLoop_nil]
      | cons r rs =>
        show passLoop batch f
            ⟨flushPage st.store ((r :: rs).take batch),
             pageLast ((r :: rs).take batch) st.checkpoint⟩
            ((r :: rs).drop batch) =
          passLoop batch (rs.length + 1) st (r :: rs)
        have hd : ((r :: rs).drop batch).length ≤ rs.length := by
          simp only [List.length_drop, List.length_cons]
          omega
        have hlen : rs.length ≤ f := by simpa using h
        rw [ih f (Nat.lt_succ_self f) _ _ (le_trans hd hlen)]
        rw [show passLoop batch (rs.length + 1) st (r :: rs) =
            passLoop batch rs.length
              ⟨flushPage st.store ((r :: rs).take batch),
               pageLast ((r :: rs).take batch) st.checkpoint⟩
              ((r :: rs).drop batch) from rfl]
        cases Nat.eq_or_lt_of_le hd with
        | inl he => rw [he]
        | inr hlt => rw [ih rs.length (Nat.lt_succ_of_le hlen) _ _ (le_of_lt hlt)]

theorem mem_ts_le_pageLast (d : Nat) :
    ∀ (l : List GroupRecord), l.Pairwise (fun a b => a.ts < b.ts) →
      ∀ x ∈ l, x.ts ≤ pageLast l d := by
  intro l
  induction l with
  | nil => intro _ x hx; cases hx
  | cons a l ih =>
    intro hpw x hx
    rcases List.pairwise_cons.mp hpw with ⟨ha, hl⟩
    cases l with
    | nil =>
      rcases List.mem_singleton.mp hx with rfl
      exact le_refl _
    | cons b t =>
      have hlast : pageLast (a :: b :: t) d = pageLast (b :: t) d := rfl
      rcases List.mem_cons.mp hx with rfl | hx'
      · rw [hlast]
        exact le_trans (le_of_lt (ha b (List.mem_cons_self b t)))
          (ih hl b (List.mem_cons_self b t))
      · rw [hlast]
        exact ih hl x hx'

theorem pageLast_mem (d : Nat) :
    ∀ (l : List GroupRecord), l ≠ [] → ∃ x ∈ l, pageLast l d = x.ts := by
  intro l
  induction l with
  | nil => intro h; exact absurd rfl h
  | cons a l ih =>
    intro _
    cases l with
    | nil => exact ⟨a, List.mem_singleton.mpr rfl, rfl⟩
    | cons b t =>
      obtain ⟨x, hx, he⟩ := ih (by simp)
      exact ⟨x, List.mem_cons_of_mem a hx, he⟩

/-- The heart of checkpoint safety: after flushing one page of the cursor
and advancing the checkpoint to its last timestamp, re-reading the source
strictly above the new checkpoint yields exactly the unread remainder of
the old cursor. -/
theorem remainingAfter_step {src : List GroupRecord}
    (hsort : src.Pairwise (fun a b => a.ts < b.ts)) {cp : Nat}
    {r : GroupRecord} {rs : List GroupRecord}
    (hr : remainingAfter cp src = r :: rs) {batch : Nat} (hb : 1 ≤ batch) :
    remainingAfter (pageLast ((r :: rs).take batch) cp) src =
      (r :: rs).drop batch := by
  have hpw : (r :: rs).Pairwise (fun a b => a.ts < b.ts) := by
    rw [← hr]
    exact hsort.sublist (List.filter_sublist src)
  have hmemrem : ∀ x ∈ r :: rs, cp < x.ts := by
    intro x hx
    rw [← hr] at hx
    have := List.of_mem_filter hx
    simpa using this
  have htake_ne : (r :: rs).take batch ≠ [] := by
    cases batch with
    | zero => omega
    | succ n => simp [List.take_succ_cons]
  obtain ⟨w, hw, hwts⟩ := pageLast_mem cp _ htake_ne
  have hw_mem : w ∈ r :: rs := List.mem_of_mem_take hw
  have hcp_lt : cp < pageLast ((r :: rs).take batch) cp := by
    rw [hwts]
    exact hmemrem w hw_mem
  have hpw_take : ((r :: rs).take batch).Pairwise (fun a b => a.ts < b.ts) :=
    hpw.sublist (List.take_sublist batch (r :: rs))
  have htake_le : ∀ x ∈ (r :: rs).take batch,
      x.ts ≤ pageLast ((r :: rs).take batch) cp :=
    mem_ts_le_pageLast cp _ hpw_take
  have hcross : ∀ x ∈ (r :: rs).take batch, ∀ y ∈ (r :: rs).drop batch,
      x.ts < y.ts := by
    have := (List.pairwise_append.mp
      (by rw [List.take_append_drop batch (r :: rs)]; exact hpw)).2.2
    exact this
  have hdrop_gt : ∀ y ∈ (r :: rs).drop batch,
      pageLast ((r :: rs).take batch) cp < y.ts := by
    intro y hy
    rw [hwts]
    exact hcross w hw y hy
  -- reduce the new filter over `src` to a filter over the old cursor
  have himp : ∀ cpl : Nat, cp < cpl → remainingAfter cpl src =
      (r :: rs).filter (fun x => cpl < x.ts) := by
    intro cpl hcpl
    rw [← hr, remainingAfter, remainingAfter, List.filter_filter]
    apply List.filter_congr
    intro x _
    by_cases hx : cpl < x.ts
    · simp [hx, lt_trans hcpl hx]
    · simp [hx]
  rw [himp _ hcp_lt]
  have hsplit : (r :: rs).filter
      (fun x => pageLast ((r :: rs).take batch) cp < x.ts) =
      ((r :: rs).take batch).filter
        (fun x => pageLast ((r :: rs).take batch) cp < x.ts) ++
      ((r :: rs).drop batch).filter
        (fun x => pageLast ((r :: rs).take batch) cp < x.ts) := by
    rw [← List.filter_append, List.take_append_drop]
  rw [hsplit]
  have h1 : ((r :: rs).take batch).filter
      (fun x => pageLast ((r :: rs).take batch) cp < x.ts) = [] := by
    rw [List.filter_eq_nil_iff]
    intro x hx
    simp only [decide_eq_true_eq]
    exact not_lt_of_le (htake_le x hx)
  have h2 : ((r :: rs).drop batch).filter
      (fun x => pageLast ((r :: rs).take batch) cp < x.ts) =
      (r :: rs).drop batch := by
    rw [List.filter_eq_self]
    intro x hx
    simp only [decide_eq_true_eq]
    exact hdrop_gt x hx
  rw [h1, h2, List.nil_append]

/-- Rerunning after an aborted pass produces the same final state as the
uninterrupted pass. -/
theorem runPass_after_aborted (batch : Nat) (hb : 1 ≤ batch)
    (src : List GroupRecord)
    (hsort : src.Pairwise (fun a b => a.ts < b.ts)) :
    ∀ (k : Nat) (st : ScanState),
      runPass batch (abortedPass batch k st src) src = runPass batch st src := by
  intro k
  induction k with
  | zero => intro st; rfl
  | succ k ih =>
    intro st
    cases hr : remainingAfter st.checkpoint src with
    | nil =>
      rw [abortedPass, hr, passLoop_nil]
    | cons r rs =>
      have hkey := remainingAfter_step hsort hr hb
      have ha : abortedPass batch (k + 1) st src =
          abortedPass batch k
            ⟨flushPage st.store ((r :: rs).take batch),
             pageLast ((r :: rs).take batch) st.checkpoint⟩ src := by
        rw [abortedPass, hr]
        rw [show passLoop batch (k + 1) st (r :: rs) =
            passLoop batch k
              ⟨flushPage st.store ((r :: rs).take batch),
               pageLast ((r :: rs).take batch) st.checkpoint⟩
              ((r :: rs).drop batch) from rfl]
        rw [abortedPass]
        rw [show (⟨flushPage st.store ((r :: rs).take batch),
             pageLast ((r :: rs).take batch) st.checkpoint⟩ :
              ScanState).checkpoint =
            pageLast ((r :: rs).take batch) st.checkpoint from rfl, hkey]
      rw [ha, ih]
      -- one uninterrupted pass from `st` also starts with this page
      rw [runPass, runPass, hkey, hr]
      have hlen_rem : (r :: rs).length ≤ src.length := by
        rw [← hr]
        exact List.length_filter_le _ src
      have hsrc_pos : 1 ≤ src.length := by
        have : 1 ≤ (r :: rs).length := by simp
        omega
      have hd_le : ((r :: rs).drop batch).length ≤ src.length := by
        have h' : ((r :: rs).drop batch).length ≤ (r :: rs).length := by
          simp only [List.length_drop]
          omega
        omega
      rw [passLoop_fuel batch hb src.length _ _ hd_le]
      rw [passLoop_fuel batch hb src.length _ _ hlen_rem]
      simp only [List.length_cons]
      rw [show passLoop batch (rs.length + 1) st (r :: rs) =
          passLoop batch rs.length
            ⟨flushPage st.store ((r :: rs).take batch),
             pageLast ((r :: rs).take batch) st.checkpoint⟩
            ((r :: rs).drop batch) from rfl]
      have hd_le2 : ((r :: rs).drop batch).length ≤ rs.length := by
        simp only [List.length_drop, List.length_cons]
        omega
      cases Nat.eq_or_lt_of_le hd_le2 with
      | inl he => rw [he]
      | inr hlt =>
        rw [passLoop_fuel batch hb rs.length _ _ (le_of_lt hlt)]

/-! ## Claims -/

/-- Claim C1, counterexample: normalization is not idempotent for every
string.  On `"x@1234@5678"` the object-reference pass rewrites `x@1234` to
`[OBJECT_REF]`, producing `[OBJECT_REF]@5678`; a second application matches
`[OBJECT_REF]@5678` itself as an object reference (`[`, `]` and letters are
all in its class) and rewrites it to `[OBJECT_REF]`. -/
theorem C1_cex_not_idempotent :
    normalizeErrorPattern (.str (normalizeErrorPattern (.str "x@1234@5678"))) ≠
      normalizeErrorPattern (.str "x@1234@5678") := by decide

/-- Claim C1, amended: normalization is deterministic (it is a pure
function of its input), and applying it twice equals applying it once on
the specification's documented example input, but not for every string. -/
theorem C1_amended_idempotent_on_example :
    normalizeErrorPattern (.str (normalizeErrorPattern
        (.str "Error processing case CO-12345 at 2025-01-01"))) =
      normalizeErrorPattern
        (.str "Error processing case CO-12345 at 2025-01-01") := by decide

/-- Claim C2: the rule-9 whole-query-string substitution is reachable: an
input containing a long URL with a query string whose authority begins with
a character outside the file-path class (here `<`) keeps its `https://`
scheme intact through the file-path pass, and the whole query string is
then replaced by `[QUERY_PARAMS]`. -/
theorem C2_whole_query_params_reachable :
    normalizeErrorPattern
        (.str "Request to https://<api.example.com?sessionid=abc12345 failed") =
      "Request to https://<api.example.com?[QUERY_PARAMS] failed" := by decide

/-- Claim C3: waterfall classification is exclusive — every record
satisfying Level 1's predicate (exceptionClass, ruleName and ruleType all
present) classifies as RuleFailure and never as LoggerPattern or
Unclassified, regardless of its loggerName or message. -/
theorem C3_waterfall_exclusive (r : LogRecord)
    (h : level1Matches r = true) :
    waterfallClassify r = ClassificationLevel.RuleFailure ∧
      waterfallClassify r ≠ ClassificationLevel.LoggerPattern ∧
      waterfallClassify r ≠ ClassificationLevel.Unclassified := by
  have h1 : waterfallClassify r = ClassificationLevel.RuleFailure := by
    rw [waterfallClassify, if_pos h]
  exact ⟨h1, by rw [h1]; decide, by rw [h1]; decide⟩

/-- Witness for C3 at a record carrying every field. -/
theorem C3_waterfall_exclusive_witness :
    level1Matches ⟨some "Section execution failed", some "com.pega.PRRuntime",
        some "NullPointerException", some "CalculateTax", some "Activity"⟩ =
      true ∧
    waterfallClassify ⟨some "Section execution failed",
        some "com.pega.PRRuntime", some "NullPointerException",
        some "CalculateTax", some "Activity"⟩ =
      ClassificationLevel.RuleFailure :=
  ⟨by decide, (C3_waterfall_exclusive _ (by decide)).1⟩

/-- Claim C4: normalization never fails and handles null/empty input:
`undefined`, `null` and `""` all yield `""`, and every string input yields
a string. -/
theorem C4_null_empty_contract :
    normalizeErrorPattern MessageInput.undef = "" ∧
      normalizeErrorPattern MessageInput.null = "" ∧
      normalizeErrorPattern (.str "") = "" ∧
      ∀ s : String, ∃ t : String, normalizeErrorPattern (.str s) = t :=
  ⟨rfl, rfl, by decide, fun _ => ⟨_, rfl⟩⟩

/-- Claim C5: the documented example —
`"Error processing case CO-12345 at 2025-01-01"` normalizes to
`"Error processing case [CASE_ID] at [DATE]"`. -/
theorem C5_spec_example :
    normalizeErrorPattern
        (.str "Error processing case CO-12345 at 2025-01-01") =
      "Error processing case [CASE_ID] at [DATE]" := by decide

/-- Claim C6, counterexample: a substring of the form uppercase letters,
hyphen, six-plus digits need not become `[CASE_ID]`: in
`"AB-12345678-1234-1234-1234-123456789012"` the UUID pass (which runs
before the case-id pass) consumes the digits, and the output `"AB-[UUID]"`
contains no `[CASE_ID]` at all. -/
theorem C6_cex_uuid_preempts_case_id :
    normalizeErrorPattern
        (.str "AB-12345678-1234-1234-1234-123456789012") = "AB-[UUID]" ∧
      ¬ ("[CASE_ID]".data <:+:
        (normalizeErrorPattern
          (.str "AB-12345678-1234-1234-1234-123456789012")).data) :=
  ⟨by decide, by decide⟩

/-- Claim C6, amended: the case-identifier substitution runs before the
bare long-digit substitution, so when no earlier rule overlaps the
substring — in particular on every input consisting exactly of uppercase
letters, a hyphen and a run of six or more digits — normalization yields
exactly `[CASE_ID]`, never the letters followed by `[ID]`. -/
theorem C6_amended_exact_case_id (L D : List Char) (hL : L ≠ [])
    (hLu : ∀ c ∈ L, c.isUpper = true) (hD6 : 6 ≤ D.length)
    (hDd : ∀ c ∈ D, c.isDigit = true) :
    normalizeErrorPattern (.str (String.mk (L ++ '-' :: D))) = "[CASE_ID]" := by
  have hne : ¬(String.mk (L ++ '-' :: D) = "") := by
    intro h
    have h' := congrArg String.data h
    simp at h'
  show (if String.mk (L ++ '-' :: D) = "" then ""
    else String.mk (normalizeSteps (String.mk (L ++ '-' :: D)).data)) =
    "[CASE_ID]"
  rw [if_neg hne]
  show String.mk (normalizeSteps (L ++ '-' :: D)) = "[CASE_ID]"
  rw [normalizeSteps_case_id L D hL hLu hD6 hDd]
  rfl

/-- Witness for the amended C6 at the claim's own example `CO-1234567`. -/
theorem C6_amended_exact_case_id_witness :
    ("CO".toList ≠ []) ∧
      ("CO".toList.all Char.isUpper = true) ∧
      (6 ≤ "1234567".toList.length) ∧
      ("1234567".toList.all Char.isDigit = true) ∧
      normalizeErrorPattern
          (.str (String.mk ("CO".toList ++ '-' :: "1234567".toList))) =
        "[CASE_ID]" :=
  ⟨by decide, by decide, by decide, by decide,
    C6_amended_exact_case_id "CO".toList "1234567".toList (by decide)
      (by decide) (by decide) (by decide)⟩

/-- Claim C7: checkpoint safety — aborting a pass after any number of
flushed pages (before the next flush) and rerunning from the persisted
checkpoint yields the same end-state per-fingerprint counts as one
uninterrupted pass, for every source window with strictly increasing
timestamps and positive page size. -/
theorem C7_checkpoint_safety (batch k : Nat) (st : ScanState)
    (src : List GroupRecord) (hb : 1 ≤ batch)
    (hsort : src.Pairwise (fun a b => a.ts < b.ts)) (f : Nat) :
    (runPass batch (abortedPass batch k st src) src).store f =
      (runPass batch st src).store f := by
  rw [runPass_after_aborted batch hb src hsort k st]

/-- Witness for C7: page size 2, abort after one page, three records. -/
theorem C7_checkpoint_safety_witness :
    (1 : Nat) ≤ 2 ∧
    List.Pairwise (fun a b : GroupRecord => a.ts < b.ts)
      [⟨1, 10⟩, ⟨2, 11⟩, ⟨3, 10⟩] ∧
    (runPass 2 (abortedPass 2 1 ⟨fun _ => 0, 0⟩
          [⟨1, 10⟩, ⟨2, 11⟩, ⟨3, 10⟩]) [⟨1, 10⟩, ⟨2, 11⟩, ⟨3, 10⟩]).store 10 =
      (runPass 2 ⟨fun _ => 0, 0⟩ [⟨1, 10⟩, ⟨2, 11⟩, ⟨3, 10⟩]).store 10 :=
  ⟨by decide, by decide,
    C7_checkpoint_safety 2 1 ⟨fun _ => 0, 0⟩ [⟨1, 10⟩, ⟨2, 11⟩, ⟨3, 10⟩]
      (by decide) (by decide) 10⟩

/-- Claim C8, counterexample: the operator-facing status selectors do not
all offer the six-value set of the specification: the InspectionModal
selector offers five values and no FALSE POSITIVE under either spelling,
and the GroupingStudio selector offers COMPLETED instead of DIAGNOSIS
COMPLETED; the two selectors disagree. -/
theorem C8_cex_selectors_disagree :
    inspectionModalStatusOptions.length = 5 ∧
      "FALSE POSITIVE" ∉ inspectionModalStatusOptions ∧
      "FALSE_POSITIVE" ∉ inspectionModalStatusOptions ∧
      "DIAGNOSIS COMPLETED" ∉ groupingStudioStatusOptions ∧
      inspectionModalStatusOptions ≠ groupingStudioStatusOptions := by decide

/-- Claim C8, amended: a newly created group's status is PENDING, and
PENDING is offered by every selector; but the selectors differ from each
other and from the specification's six-value set — InspectionModal and the
Dashboard default omit FALSE POSITIVE, and GroupingStudio offers COMPLETED
rather than DIAGNOSIS COMPLETED. -/
theorem C8_amended_status_values :
    newGroupDiagnosisStatus = "PENDING" ∧
      newGroupDiagnosisStatus ∈ inspectionModalStatusOptions ∧
      newGroupDiagnosisStatus ∈ groupingStudioStatusOptions ∧
      newGroupDiagnosisStatus ∈ dashboardStatusOptions ∧
      "FALSE POSITIVE" ∈ groupingStudioStatusOptions ∧
      "DIAGNOSIS COMPLETED" ∈ inspectionModalStatusOptions ∧
      "FALSE POSITIVE" ∉ dashboardStatusOptions ∧
      specStatusValues.length = 6 ∧
      inspectionModalStatusOptions ≠ specStatusValues ∧
      groupingStudioStatusOptions ≠ specStatusValues := by decide

/-- Claim C9: query-parameter values that are exactly one of the flag
literals true, false, 1, 0, yes, no at a value boundary are preserved:
`?key=flag` and `&key=flag` normalize to themselves, so the value is never
replaced by `[QUERY_VALUE]`. -/
theorem C9_flag_query_values_preserved (flag : String)
    (h : flag ∈ ["true", "false", "1", "0", "yes", "no"]) :
    normalizeErrorPattern (.str ("?key=" ++ flag)) = "?key=" ++ flag ∧
      normalizeErrorPattern (.str ("&key=" ++ flag)) = "&key=" ++ flag := by
  fin_cases h <;> exact ⟨by decide, by decide⟩

/-- Witness for C9 at the flag `true`. -/
theorem C9_flag_query_values_preserved_witness :
    "true" ∈ ["true", "false", "1", "0", "yes", "no"] ∧
      normalizeErrorPattern (.str ("?key=" ++ "true")) = "?key=" ++ "true" :=
  ⟨by decide, (C9_flag_query_values_preserved "true" (by decide)).1⟩

/-- Claim C10: because the bare long-digit rule runs before the email
rule, an email whose local part is a bare run of six or more digits
normalizes to `[ID]@example.com` rather than `[EMAIL]`, and the `[EMAIL]`
placeholder never appears in the output. -/
theorem C10_digit_local_part_never_email (D : List Char)
    (hD6 : 6 ≤ D.length) (hDd : ∀ c ∈ D, c.isDigit = true) :
    normalizeErrorPattern (.str (String.mk (D ++ "@example.com".toList))) =
        "[ID]@example.com" ∧
      ¬ ("[EMAIL]".data <:+:
        (normalizeErrorPattern
          (.str (String.mk (D ++ "@example.com".toList)))).data) := by
  have hne : ¬(String.mk (D ++ "@example.com".toList) = "") := by
    intro h
    have h' := congrArg String.data h
    simp at h'
  have h1 : normalizeErrorPattern
      (.str (String.mk (D ++ "@example.com".toList))) = "[ID]@example.com" := by
    show (if String.mk (D ++ "@example.com".toList) = "" then ""
      else String.mk
        (normalizeSteps (String.mk (D ++ "@example.com".toList)).data)) =
      "[ID]@example.com"
    rw [if_neg hne]
    show String.mk (normalizeSteps (D ++ "@example.com".toList)) =
      "[ID]@example.com"
    rw [normalizeSteps_digit_local_part D hD6 hDd]
    rfl
  exact ⟨h1, by rw [h1]; decide⟩

/-- Witness for C10 at the claim's own example `1234567@example.com`. -/
theorem C10_digit_local_part_never_email_witness :
    (6 ≤ "1234567".toList.length) ∧
      ("1234567".toList.all Char.isDigit = true) ∧
      normalizeErrorPattern
          (.str (String.mk ("1234567".toList ++ "@example.com".toList))) =
        "[ID]@example.com" :=
  ⟨by decide, by decide,
    (C10_digit_local_part_never_email "1234567".toList (by decide)
      (by decide)).1⟩

end Identifiai
